import Mathlib

/-!
Verification of the Telegram signal-forwarding bot (bot/telegram-bot.ts).

The development shallowly embeds the three parts of the program:

* the pattern classifier `isValidSignalMessage`, built from JavaScript regular
  expressions, embedded here as a small regular-expression language over
  `Char` with character classes (needed for the case-insensitive flag and the
  classes \s, \w, \d, [\d.]) together with a derivative-based executable
  matcher `RE.test` modelling `RegExp.prototype.test` (search anywhere in the
  string), proved sound and complete against the inductive language semantics
  `Lang`;
* the forwarder `forwardToWebsite`, whose network interaction is modelled by a
  `TransportResult` oracle (the parsed JSON response, or a transport/parse
  failure caught by the try/catch);
* the dispatcher `processMessage` and the event handlers, embedded as explicit
  state-passing functions over the three counters.
-/

set_option maxHeartbeats 1000000

namespace WhopBot

/-- Regular expressions over `Char` with boolean character classes.
`cls p` matches exactly the one-character strings whose character satisfies
`p`; this encodes the JavaScript classes \s, \w, \d, [\d.] and the
case-insensitive single characters of the /i literals. -/
inductive RE where
  | fail : RE
  | eps : RE
  | cls : (Char → Bool) → RE
  | seq : RE → RE → RE
  | alt : RE → RE → RE
  | star : RE → RE

/-- Language semantics of a regular expression: `Lang r l` holds when the
character list `l` is in the language of `r`. -/
inductive Lang : RE → List Char → Prop where
  | eps : Lang RE.eps []
  | cls {p : Char → Bool} {c : Char} : p c = true → Lang (RE.cls p) [c]
  | seq {a b : RE} {l1 l2 : List Char} :
      Lang a l1 → Lang b l2 → Lang (RE.seq a b) (l1 ++ l2)
  | altl {a b : RE} {l : List Char} : Lang a l → Lang (RE.alt a b) l
  | altr {a b : RE} {l : List Char} : Lang b l → Lang (RE.alt a b) l
  | starNil {a : RE} : Lang (RE.star a) []
  | starApp {a : RE} {l1 l2 : List Char} :
      Lang a l1 → Lang (RE.star a) l2 → Lang (RE.star a) (l1 ++ l2)

/-- Does the expression accept the empty string. -/
def nullable : RE → Bool
  | RE.fail => false
  | RE.eps => true
  | RE.cls _ => false
  | RE.seq a b => nullable a && nullable b
  | RE.alt a b => nullable a || nullable b
  | RE.star _ => true

/-- Recognize the failing expression (used by the smart constructors that keep
derivatives small). -/
def isFail : RE → Bool
  | RE.fail => true
  | _ => false

/-- Sequencing that collapses a failing factor to `fail`. -/
def mkSeq (a b : RE) : RE :=
  if isFail a || isFail b then RE.fail else RE.seq a b

/-- Alternation that drops failing branches. -/
def mkAlt (a b : RE) : RE :=
  if isFail a then b else if isFail b then a else RE.alt a b

/-- Brzozowski derivative of an expression by one character. -/
def deriv : RE → Char → RE
  | RE.fail, _ => RE.fail
  | RE.eps, _ => RE.fail
  | RE.cls p, c => if p c then RE.eps else RE.fail
  | RE.seq a b, c =>
      if nullable a then mkAlt (mkSeq (deriv a c) b) (deriv b c)
      else mkSeq (deriv a c) b
  | RE.alt a b, c => mkAlt (deriv a c) (deriv b c)
  | RE.star a, c => mkSeq (deriv a c) (RE.star a)

/-- Full match of a character list against an expression. -/
def matchList (r : RE) : List Char → Bool
  | [] => nullable r
  | c :: cs => matchList (deriv r c) cs

/-- Does some initial segment of the list match the expression. -/
def matchSomeInit (r : RE) : List Char → Bool
  | [] => nullable r
  | c :: cs => nullable r || matchSomeInit (deriv r c) cs

/-- Does some contiguous segment of the list match the expression. -/
def searchList (r : RE) : List Char → Bool
  | [] => nullable r
  | c :: cs => matchSomeInit r (c :: cs) || searchList r cs

/-- Model of JavaScript `RegExp.prototype.test`: true when some substring of
the string matches the expression. -/
def RE.test (r : RE) (s : String) : Bool :=
  searchList r s.data

/-- The string contains a substring in the language of the expression. -/
def Contains (r : RE) (s : String) : Prop :=
  ∃ l1 l2 l3, s.data = l1 ++ (l2 ++ l3) ∧ Lang r l2

/-- JavaScript regular-expression class \s (whitespace), including the
Unicode space characters the ECMAScript standard lists. -/
def wsChar (c : Char) : Bool :=
  decide (c = ' ' ∨ c = '\t' ∨ c = '\n' ∨ c = '\x0b' ∨ c = '\x0c' ∨ c = '\r' ∨
    c.val = 0xa0 ∨ c.val = 0x1680 ∨ (0x2000 ≤ c.val ∧ c.val ≤ 0x200a) ∨
    c.val = 0x2028 ∨ c.val = 0x2029 ∨ c.val = 0x202f ∨ c.val = 0x205f ∨
    c.val = 0x3000 ∨ c.val = 0xfeff)

/-- JavaScript regular-expression class \w (ASCII letters, digits and
underscore). -/
def wordChar (c : Char) : Bool :=
  decide (('a' ≤ c ∧ c ≤ 'z') ∨ ('A' ≤ c ∧ c ≤ 'Z') ∨ ('0' ≤ c ∧ c ≤ '9') ∨ c = '_')

/-- JavaScript regular-expression class \d (ASCII digits). -/
def digitChar (c : Char) : Bool :=
  decide ('0' ≤ c ∧ c ≤ '9')

/-- JavaScript character class [\d.]: an ASCII digit or a decimal point. -/
def digitDotChar (c : Char) : Bool :=
  digitChar c || c == '.'

/-- One character matched case-insensitively, modelling a literal character
inside a regular expression carrying the /i flag. -/
def ichr (c : Char) : RE :=
  RE.cls (fun x => x.toLower == c.toLower)

/-- A literal word matched case-insensitively, modelling a run of literal
characters inside a regular expression carrying the /i flag. -/
def lit (s : String) : RE :=
  s.data.foldr (fun c r => RE.seq (ichr c) r) RE.eps

/-- Concatenation of a list of regular expressions. -/
def cat : List RE → RE
  | [] => RE.eps
  | r :: rs => RE.seq r (cat rs)

/-- The pattern piece \s* (arbitrary whitespace). -/
def ws : RE :=
  RE.star (RE.cls wsChar)

/-- The pattern piece p+ for a character class p. -/
def rePlus (p : Char → Bool) : RE :=
  RE.seq (RE.cls p) (RE.star (RE.cls p))

/-- Source regex (telegram-bot.ts line 38): /script\s*:\s*\w+/i -/
def reScript : RE :=
  cat [lit "script", ws, ichr ':', ws, rePlus wordChar]

/-- Source regex (line 39): /position\s*:\s*(BUY|SELL)/i -/
def rePosition : RE :=
  cat [lit "position", ws, ichr ':', ws, RE.alt (lit "BUY") (lit "SELL")]

/-- Source regex (line 40): /enter\s*price\s*:\s*[\d.]+/i -/
def reEnterPrice : RE :=
  cat [lit "enter", ws, lit "price", ws, ichr ':', ws, rePlus digitDotChar]

/-- Source regex (line 41): /take\s*profit\s*1\s*:\s*[\d.]+/i -/
def reTakeProfit1 : RE :=
  cat [lit "take", ws, lit "profit", ws, ichr '1', ws, ichr ':', ws, rePlus digitDotChar]

/-- Source regex (line 42): /stoploss\s*:\s*[\d.]+/i -/
def reStoploss : RE :=
  cat [lit "stoploss", ws, ichr ':', ws, rePlus digitDotChar]

/-- Source regex (line 46): /take\s*profit\s*\d+\s*from\s*(long|short)\s*signal/i -/
def reTpPhrase : RE :=
  cat [lit "take", ws, lit "profit", ws, rePlus digitChar, ws, lit "from", ws,
    RE.alt (lit "long") (lit "short"), ws, lit "signal"]

/-- The phrase price\s*:\s*[\d.]+\s*in\s*\w+ shared by the take-profit-update
pattern (line 47, after the optional at prefix) and the stop-loss-hit pattern
(line 52, the whole regex). -/
def rePriceIn : RE :=
  cat [lit "price", ws, ichr ':', ws, rePlus digitDotChar, ws, lit "in", ws,
    rePlus wordChar]

/-- The optional prefix piece at\s* of the take-profit-update price regex. -/
def reAtWs : RE :=
  RE.seq (lit "at") ws

/-- Source regex (line 47): /(?:at\s*)?price\s*:\s*[\d.]+\s*in\s*\w+/i -/
def reTpPrice : RE :=
  RE.seq (RE.alt reAtWs RE.eps) rePriceIn

/-- The at-prefixed variant of the price phrase, used to state that a text
carrying the explicit at prefix also matches. -/
def reAtPriceIn : RE :=
  RE.seq reAtWs rePriceIn

/-- Source regex (line 51): /hit\s*sl\s*from\s*(long|short)\s*signal/i -/
def reHitSl : RE :=
  cat [lit "hit", ws, lit "sl", ws, lit "from", ws,
    RE.alt (lit "long") (lit "short"), ws, lit "signal"]

/-- Source (lines 37-42): the new-signal family, the conjunction of the five
label regex tests. -/
def isNewSignal (text : String) : Bool :=
  RE.test reScript text && RE.test rePosition text && RE.test reEnterPrice text &&
  RE.test reTakeProfit1 text && RE.test reStoploss text

/-- Source (lines 45-47): the take-profit-update family. -/
def isTpUpdate (text : String) : Bool :=
  RE.test reTpPhrase text && RE.test reTpPrice text

/-- Source (lines 50-52): the stop-loss-hit family. -/
def isSlHit (text : String) : Bool :=
  RE.test reHitSl text && RE.test rePriceIn text

/-- Source (lines 35-55): isValidSignalMessage, the pattern classifier. -/
def isValidSignalMessage (text : String) : Bool :=
  isNewSignal text || isTpUpdate text || isSlHit text

/-- JSON values, modelling the parsed body returned by response.json().
Objects are association lists; property access on duplicate keys is not
exercised by any claim. -/
inductive JsonVal where
  | null : JsonVal
  | bool : Bool → JsonVal
  | num : Int → JsonVal
  | str : String → JsonVal
  | arr : List JsonVal → JsonVal
  | obj : List (String × JsonVal) → JsonVal

/-- First binding of a key in an association list. -/
def lookupKey : List (String × JsonVal) → String → Option JsonVal
  | [], _ => none
  | (k, v) :: rest, key => if k = key then some v else lookupKey rest key

/-- JavaScript property access data.status: defined on objects, undefined
(none) on every other JSON value. -/
def getField (v : JsonVal) (k : String) : Option JsonVal :=
  match v with
  | JsonVal.obj kvs => lookupKey kvs k
  | _ => none

/-- Outcome of the fetch plus response.json() pair inside forwardToWebsite.
ok carries the parsed JSON body; netError models a rejected fetch (endpoint
unreachable); badJson models a response body that is not parseable JSON.
Both failure constructors are caught by the try/catch of the source. -/
inductive TransportResult where
  | ok : JsonVal → TransportResult
  | netError : TransportResult
  | badJson : TransportResult

/-- Which console line forwardToWebsite prints (lines 74, 77, 80, 84). -/
inductive LogKind where
  | successLog : LogKind
  | ignoredLog : LogKind
  | apiErrorLog : LogKind
  | exceptionLog : LogKind
deriving DecidableEq

/-- Source (lines 60-87): forwardToWebsite. The network interaction is
modelled by the TransportResult oracle; the function returns the boolean
result together with the log line the source prints. -/
def forwardToWebsite (tr : TransportResult) : Bool × LogKind :=
  match tr with
  | TransportResult.ok data =>
    match getField data "status" with
    | some (JsonVal.str "success") => (true, LogKind.successLog)
    | some (JsonVal.str "ignored") => (false, LogKind.ignoredLog)
    | _ => (false, LogKind.apiErrorLog)
  | TransportResult.netError => (false, LogKind.exceptionLog)
  | TransportResult.badJson => (false, LogKind.exceptionLog)

/-- The three in-memory counters (source lines 28-30). -/
structure Stats where
  messagesReceived : Nat
  messagesForwarded : Nat
  messagesIgnored : Nat
deriving DecidableEq

/-- Console lines emitted by processMessage. -/
inductive LogEvent where
  | ignoredNonSignal : Nat → LogEvent
  | forwardOutcome : LogKind → LogEvent
  | statsLine : Nat → Nat → Nat → LogEvent
  | testReply : Bool → LogEvent
deriving DecidableEq

/-- Recognize the periodic statistics summary line (source line 110). -/
def LogEvent.isStatsLine : LogEvent → Bool
  | LogEvent.statsLine _ _ _ => true
  | _ => false

/-- Result of one dispatcher step: the updated counters, the log lines
emitted, and the text passed to forwardToWebsite when it was invoked. -/
structure StepOut where
  stats : Stats
  logs : List LogEvent
  forwardedText : Option String
deriving DecidableEq

/-- Source (lines 92-112): processMessage. Increments received, early-returns
on non-signals (incrementing ignored), otherwise forwards and increments
forwarded on success; the summary line prints when received is a multiple of
ten, but only on the non-early-return path. -/
def processMessage (s : Stats) (text : String) (tr : TransportResult) : StepOut :=
  let s1 : Stats := { s with messagesReceived := s.messagesReceived + 1 }
  if !isValidSignalMessage text then
    let s2 : Stats := { s1 with messagesIgnored := s1.messagesIgnored + 1 }
    { stats := s2, logs := [LogEvent.ignoredNonSignal s2.messagesIgnored],
      forwardedText := none }
  else
    let fw := forwardToWebsite tr
    let s2 : Stats :=
      if fw.fst then { s1 with messagesForwarded := s1.messagesForwarded + 1 } else s1
    let tail : List LogEvent :=
      if s2.messagesReceived % 10 == 0 then
        [LogEvent.statsLine s2.messagesReceived s2.messagesForwarded s2.messagesIgnored]
      else []
    { stats := s2, logs := LogEvent.forwardOutcome fw.snd :: tail,
      forwardedText := some text }

/-- Does the first list start with the second. -/
def startsWithL : List Char → List Char → Bool
  | _, [] => true
  | [], _ :: _ => false
  | c :: cs, p :: ps => c == p && startsWithL cs ps

/-- JavaScript String.prototype.replace with a string pattern: replace the
first occurrence only. -/
def replaceFirstL (s pat rep : List Char) : List Char :=
  match s with
  | [] => []
  | c :: cs =>
    if startsWithL (c :: cs) pat then rep ++ (c :: cs).drop pat.length
    else c :: replaceFirstL cs pat rep

/-- String version of first-occurrence replacement. -/
def replaceFirstStr (s pat rep : String) : String :=
  String.mk (replaceFirstL s.data pat.data rep.data)

/-- An inbound text event: the chat identity the message arrived in, the
identity of the original channel when the event is a forwarded post
(ctx.message.forward_from_chat, modelled by its id), and the text. -/
structure TextEvent where
  chatId : Int
  forward_from_chat : Option Int
  text : String

/-- Source (lines 115-131): the text-message handler. When a source channel
is configured it accepts the event when the chat id equals the configured id
or its variant with the -100 prefix collapsed to -, and otherwise only when
the event is a forwarded post whose original channel id equals the configured
id with the -100 prefix stripped; every other event is silently dropped. -/
def textHandler (sourceChannelId : String) (s : Stats) (e : TextEvent)
    (tr : TransportResult) : StepOut :=
  if sourceChannelId ≠ "" then
    if toString e.chatId ≠ sourceChannelId ∧
        toString e.chatId ≠ replaceFirstStr sourceChannelId "-100" "-" then
      match e.forward_from_chat with
      | none => { stats := s, logs := [], forwardedText := none }
      | some fid =>
        if toString fid ≠ replaceFirstStr sourceChannelId "-100" "" then
          { stats := s, logs := [], forwardedText := none }
        else processMessage s e.text tr
    else processMessage s e.text tr
  else processMessage s e.text tr

/-- An event delivered to the forward-date handler: the source reads only
ctx.message.text, which may be absent. -/
structure ForwardEvent where
  chatId : Int
  forward_from_chat : Option Int
  text : Option String

/-- Source (lines 134-139): the forwarded-message handler. It reads the text
and, when the text is present and truthy (the empty string is falsy in
JavaScript), calls processMessage; it performs no origin check at all, so the
configured source channel id is unused. -/
def forwardDateHandler (_sourceChannelId : String) (s : Stats) (e : ForwardEvent)
    (tr : TransportResult) : StepOut :=
  match e.text with
  | some t =>
    if t = "" then { stats := s, logs := [], forwardedText := none }
    else processMessage s t tr
  | none => { stats := s, logs := [], forwardedText := none }

/-- Source (lines 168-175): the hard-coded sample signal of the test
command. -/
def testMessage : String :=
  "script          : BTCUSD\nPosition        : BUY\nEnter Price     : 90827.56\nTake Profit 1   : 91528.57\nTake Profit 2   : 91995.90\nTake Profit 3   : 92696.91\nTake Profit 4   : 93631.58\nStoploss        : 89659.22"

/-- Source (lines 167-180): the test command. It runs the sample message
through forwardToWebsite and replies with the outcome; it never touches the
counters. -/
def testCommand (s : Stats) (tr : TransportResult) : StepOut :=
  let fw := forwardToWebsite tr
  { stats := s, logs := [LogEvent.testReply fw.fst], forwardedText := some testMessage }

/-- Source (lines 142-153): the start command only reads the counters. -/
def startCommand (s : Stats) : StepOut :=
  { stats := s, logs := [], forwardedText := none }

/-- Source (lines 156-164): the stats command only reads the counters. -/
def statsCommand (s : Stats) : StepOut :=
  { stats := s, logs := [], forwardedText := none }

/-- The acceptance check of the text handler, written as one boolean: the
event origin matches the configured source channel, in any of the forms the
source compares against (the raw configured id, its variant with the -100
prefix collapsed to -, or, for forwarded posts, the original channel id
against the configured id with the -100 prefix stripped). -/
def originAccepted (sourceChannelId : String) (e : TextEvent) : Bool :=
  toString e.chatId == sourceChannelId ||
  toString e.chatId == replaceFirstStr sourceChannelId "-100" "-" ||
  (match e.forward_from_chat with
   | some fid => toString fid == replaceFirstStr sourceChannelId "-100" ""
   | none => false)

/-- States of the counters reachable by the bot process started with the
given configured source channel id: the initial all-zero state, and the
states produced by the two message handlers and the three commands. -/
inductive Reachable (cfg : String) : Stats → Prop where
  | init : Reachable cfg (Stats.mk 0 0 0)
  | text {s : Stats} (e : TextEvent) (tr : TransportResult) :
      Reachable cfg s → Reachable cfg (textHandler cfg s e tr).stats
  | fwd {s : Stats} (e : ForwardEvent) (tr : TransportResult) :
      Reachable cfg s → Reachable cfg (forwardDateHandler cfg s e tr).stats
  | testCmd {s : Stats} (tr : TransportResult) :
      Reachable cfg s → Reachable cfg (testCommand s tr).stats
  | startCmd {s : Stats} :
      Reachable cfg s → Reachable cfg (startCommand s).stats
  | statsCmd {s : Stats} :
      Reachable cfg s → Reachable cfg (statsCommand s).stats

/-- The spec's end-to-end scenario 1 message, a valid new signal. -/
def sampleSignal : String :=
  "script : BTCUSD\nPosition : BUY\nEnter Price : 90827.56\nTake Profit 1 : 91528.57\nStoploss : 89659.22"

/-- Modelled from the spec sentence: a numeric value is a digit sequence
optionally containing a decimal point — a nonempty all-digit sequence, or a
digit sequence split around exactly one decimal point. -/
def SpecNumericValue (l : List Char) : Prop :=
  (l ≠ [] ∧ ∀ c ∈ l, digitChar c = true) ∨
  (∃ a b, l = a ++ '.' :: b ∧ a ++ b ≠ [] ∧ ∀ c ∈ a ++ b, digitChar c = true)

theorem lang_fail {l : List Char} : ¬ Lang RE.fail l := by
  intro h; cases h

theorem lang_eps_inv {l : List Char} (h : Lang RE.eps l) : l = [] := by
  cases h; rfl

theorem lang_cls_inv {p : Char → Bool} {l : List Char} (h : Lang (RE.cls p) l) :
    ∃ c, l = [c] ∧ p c = true := by
  cases h with
  | cls hp => exact ⟨_, rfl, hp⟩

theorem lang_seq_inv {a b : RE} {l : List Char} (h : Lang (RE.seq a b) l) :
    ∃ l1 l2, l = l1 ++ l2 ∧ Lang a l1 ∧ Lang b l2 := by
  cases h with
  | seq h1 h2 => exact ⟨_, _, rfl, h1, h2⟩

theorem lang_alt_inv {a b : RE} {l : List Char} (h : Lang (RE.alt a b) l) :
    Lang a l ∨ Lang b l := by
  cases h with
  | altl h1 => exact Or.inl h1
  | altr h1 => exact Or.inr h1

theorem isFail_iff {r : RE} : isFail r = true ↔ r = RE.fail := by
  cases r <;> simp [isFail]

theorem lang_mkSeq {a b : RE} {l : List Char} :
    Lang (mkSeq a b) l ↔ Lang (RE.seq a b) l := by
  unfold mkSeq
  split
  · rename_i h
    rcases Bool.or_eq_true_iff.mp h with h1 | h1
    · rw [isFail_iff.mp h1]
      constructor
      · intro hf; exact absurd hf lang_fail
      · intro hs
        rcases lang_seq_inv hs with ⟨l1, l2, _, ha, _⟩
        exact absurd ha lang_fail
    · rw [isFail_iff.mp h1]
      constructor
      · intro hf; exact absurd hf lang_fail
      · intro hs
        rcases lang_seq_inv hs with ⟨l1, l2, _, _, hb⟩
        exact absurd hb lang_fail
  · exact Iff.rfl

theorem lang_mkAlt {a b : RE} {l : List Char} :
    Lang (mkAlt a b) l ↔ Lang (RE.alt a b) l := by
  unfold mkAlt
  split
  · rename_i h
    rw [isFail_iff.mp h]
    constructor
    · intro hb; exact Lang.altr hb
    · intro hs
      rcases lang_alt_inv hs with h1 | h1
      · exact absurd h1 lang_fail
      · exact h1
  · split
    · rename_i _ h
      rw [isFail_iff.mp h]
      constructor
      · intro ha; exact Lang.altl ha
      · intro hs
        rcases lang_alt_inv hs with h1 | h1
        · exact h1
        · exact absurd h1 lang_fail
    · exact Iff.rfl

theorem nullable_lang (r : RE) : nullable r = true ↔ Lang r [] := by
  induction r with
  | fail =>
      simp only [nullable, Bool.false_eq_true, false_iff]
      exact lang_fail
  | eps =>
      simp only [nullable, true_iff]
      exact Lang.eps
  | cls p =>
      simp only [nullable, Bool.false_eq_true, false_iff]
      intro h
      rcases lang_cls_inv h with ⟨c, hc, _⟩
      exact List.noConfusion hc
  | seq a b iha ihb =>
      simp only [nullable, Bool.and_eq_true]
      constructor
      · rintro ⟨ha, hb⟩
        have := Lang.seq (iha.mp ha) (ihb.mp hb)
        simpa using this
      · intro h
        rcases lang_seq_inv h with ⟨l1, l2, hl, ha, hb⟩
        rcases List.append_eq_nil.mp hl.symm with ⟨h1, h2⟩
        subst h1; subst h2
        exact ⟨iha.mpr ha, ihb.mpr hb⟩
  | alt a b iha ihb =>
      simp only [nullable, Bool.or_eq_true]
      constructor
      · rintro (ha | hb)
        · exact Lang.altl (iha.mp ha)
        · exact Lang.altr (ihb.mp hb)
      · intro h
        rcases lang_alt_inv h with h1 | h1
        · exact Or.inl (iha.mpr h1)
        · exact Or.inr (ihb.mpr h1)
  | star a iha =>
      simp only [nullable, true_iff]
      exact Lang.starNil

theorem lang_star_cons_aux {r : RE} {m : List Char} (h : Lang r m) :
    ∀ a : RE, r = RE.star a → ∀ (c : Char) (l : List Char), m = c :: l →
      ∃ l1 l2, l = l1 ++ l2 ∧ Lang a (c :: l1) ∧ Lang (RE.star a) l2 := by
  induction h with
  | eps => intro a ha; exact absurd ha (by intro hh; exact RE.noConfusion hh)
  | cls hp => intro a ha; exact absurd ha (by intro hh; exact RE.noConfusion hh)
  | seq h1 h2 ih1 ih2 =>
      intro a ha; exact absurd ha (by intro hh; exact RE.noConfusion hh)
  | altl h1 ih1 => intro a ha; exact absurd ha (by intro hh; exact RE.noConfusion hh)
  | altr h1 ih1 => intro a ha; exact absurd ha (by intro hh; exact RE.noConfusion hh)
  | starNil =>
      intro a _ c l hm
      exact absurd hm (by intro hh; exact List.noConfusion hh)
  | starApp h1 h2 ih1 ih2 =>
      intro a ha c l hm
      rename_i a0 l1 l2
      have ha0 : a0 = a := by
        injection ha
      subst ha0
      cases l1 with
      | nil =>
          exact ih2 _ rfl c l hm
      | cons c1 l1t =>
          rw [List.cons_append] at hm
          injection hm with hc ht
          subst hc
          exact ⟨l1t, l2, ht.symm, h1, h2⟩

/-- Inversion for a nonempty word of a star: peel off a nonempty first chunk. -/
theorem lang_star_cons {a : RE} {c : Char} {l : List Char}
    (h : Lang (RE.star a) (c :: l)) :
    ∃ l1 l2, l = l1 ++ l2 ∧ Lang a (c :: l1) ∧ Lang (RE.star a) l2 :=
  lang_star_cons_aux h a rfl c l rfl

/-- Correctness of the Brzozowski derivative. -/
theorem lang_deriv (r : RE) (c : Char) (l : List Char) :
    Lang (deriv r c) l ↔ Lang r (c :: l) := by
  induction r generalizing l with
  | fail =>
      constructor
      · intro h; exact absurd h lang_fail
      · intro h; exact absurd h lang_fail
  | eps =>
      constructor
      · intro h; exact absurd h lang_fail
      · intro h; exact absurd (lang_eps_inv h) (by intro hh; exact List.noConfusion hh)
  | cls p =>
      simp only [deriv]
      by_cases hp : p c = true
      · rw [if_pos hp]
        constructor
        · intro h
          rw [lang_eps_inv h]
          exact Lang.cls hp
        · intro h
          rcases lang_cls_inv h with ⟨c1, hc, _⟩
          injection hc with h1 h2
          subst h2
          exact Lang.eps
      · rw [if_neg hp]
        constructor
        · intro h; exact absurd h lang_fail
        · intro h
          rcases lang_cls_inv h with ⟨c1, hc, hp1⟩
          injection hc with h1 _
          subst h1
          exact absurd hp1 hp
  | seq a b iha ihb =>
      simp only [deriv]
      by_cases hn : nullable a = true
      · rw [if_pos hn]
        rw [lang_mkAlt]
        constructor
        · intro h
          rcases lang_alt_inv h with h1 | h1
          · rcases lang_seq_inv (lang_mkSeq.mp h1) with ⟨l1, l2, hl, ha, hb⟩
            subst hl
            have := Lang.seq ((iha l1).mp ha) hb
            simpa using this
          · have hb := (ihb l).mp h1
            have ha : Lang a [] := (nullable_lang a).mp hn
            have := Lang.seq ha hb
            simpa using this
        · intro h
          rcases lang_seq_inv h with ⟨l1, l2, hl, ha, hb⟩
          cases l1 with
          | nil =>
              simp only [List.nil_append] at hl
              subst hl
              exact Lang.altr ((ihb l).mpr hb)
          | cons c1 l1t =>
              rw [List.cons_append] at hl
              injection hl with hc ht
              subst hc
              subst ht
              exact Lang.altl (lang_mkSeq.mpr (Lang.seq ((iha l1t).mpr ha) hb))
      · rw [if_neg hn]
        rw [lang_mkSeq]
        constructor
        · intro h
          rcases lang_seq_inv h with ⟨l1, l2, hl, ha, hb⟩
          subst hl
          have := Lang.seq ((iha l1).mp ha) hb
          simpa using this
        · intro h
          rcases lang_seq_inv h with ⟨l1, l2, hl, ha, hb⟩
          cases l1 with
          | nil =>
              exact absurd ((nullable_lang a).mpr ha) hn
          | cons c1 l1t =>
              rw [List.cons_append] at hl
              injection hl with hc ht
              subst hc
              subst ht
              exact Lang.seq ((iha l1t).mpr ha) hb
  | alt a b iha ihb =>
      simp only [deriv]
      rw [lang_mkAlt]
      constructor
      · intro h
        rcases lang_alt_inv h with h1 | h1
        · exact Lang.altl ((iha l).mp h1)
        · exact Lang.altr ((ihb l).mp h1)
      · intro h
        rcases lang_alt_inv h with h1 | h1
        · exact Lang.altl ((iha l).mpr h1)
        · exact Lang.altr ((ihb l).mpr h1)
  | star a iha =>
      simp only [deriv]
      rw [lang_mkSeq]
      constructor
      · intro h
        rcases lang_seq_inv h with ⟨l1, l2, hl, ha, hb⟩
        subst hl
        have := Lang.starApp ((iha l1).mp ha) hb
        simpa using this
      · intro h
        rcases lang_star_cons h with ⟨l1, l2, hl, ha, hb⟩
        subst hl
        exact Lang.seq ((iha l1).mpr ha) hb

/-- The full matcher decides membership in the language. -/
theorem matchList_lang (l : List Char) (r : RE) :
    matchList r l = true ↔ Lang r l := by
  induction l generalizing r with
  | nil => simpa [matchList] using nullable_lang r
  | cons c cs ih =>
      rw [matchList, ih (deriv r c)]
      exact lang_deriv r c cs

/-- The initial-segment matcher is correct: it succeeds exactly when some
initial segment of the list is in the language. -/
theorem matchSomeInit_lang (l : List Char) (r : RE) :
    matchSomeInit r l = true ↔ ∃ l1 l2, l = l1 ++ l2 ∧ Lang r l1 := by
  induction l generalizing r with
  | nil =>
      simp only [matchSomeInit]
      constructor
      · intro h
        exact ⟨[], [], rfl, (nullable_lang r).mp h⟩
      · rintro ⟨l1, l2, hl, hr⟩
        rcases List.append_eq_nil.mp hl.symm with ⟨h1, _⟩
        subst h1
        exact (nullable_lang r).mpr hr
  | cons c cs ih =>
      simp only [matchSomeInit, Bool.or_eq_true]
      constructor
      · rintro (h | h)
        · exact ⟨[], c :: cs, rfl, (nullable_lang r).mp h⟩
        · rcases (ih (deriv r c)).mp h with ⟨l1, l2, hl, hr⟩
          exact ⟨c :: l1, l2, by rw [hl, List.cons_append], (lang_deriv r c l1).mp hr⟩
      · rintro ⟨l1, l2, hl, hr⟩
        cases l1 with
        | nil =>
            exact Or.inl ((nullable_lang r).mpr hr)
        | cons c1 l1t =>
            rw [List.cons_append] at hl
            injection hl with hc ht
            subst hc
            exact Or.inr ((ih (deriv r c)).mpr ⟨l1t, l2, ht, (lang_deriv r c l1t).mpr hr⟩)

/-- The search routine is correct: it succeeds exactly when some contiguous
segment of the list is in the language. -/
theorem searchList_lang (l : List Char) (r : RE) :
    searchList r l = true ↔ ∃ l1 l2 l3, l = l1 ++ (l2 ++ l3) ∧ Lang r l2 := by
  induction l with
  | nil =>
      simp only [searchList]
      constructor
      · intro h
        exact ⟨[], [], [], rfl, (nullable_lang r).mp h⟩
      · rintro ⟨l1, l2, l3, hl, hr⟩
        rcases List.append_eq_nil.mp hl.symm with ⟨h1, h23⟩
        rcases List.append_eq_nil.mp h23 with ⟨h2, _⟩
        subst h2
        exact (nullable_lang r).mpr hr
  | cons c cs ih =>
      simp only [searchList, Bool.or_eq_true]
      constructor
      · rintro (h | h)
        · rcases (matchSomeInit_lang (c :: cs) r).mp h with ⟨l2, l3, hl, hr⟩
          exact ⟨[], l2, l3, by rw [List.nil_append]; exact hl, hr⟩
        · rcases ih.mp h with ⟨l1, l2, l3, hl, hr⟩
          exact ⟨c :: l1, l2, l3, by rw [hl, List.cons_append], hr⟩
      · rintro ⟨l1, l2, l3, hl, hr⟩
        cases l1 with
        | nil =>
            rw [List.nil_append] at hl
            exact Or.inl ((matchSomeInit_lang (c :: cs) r).mpr ⟨l2, l3, hl, hr⟩)
        | cons c1 l1t =>
            rw [List.cons_append] at hl
            injection hl with hc ht
            subst hc
            exact Or.inr (ih.mpr ⟨l1t, l2, l3, ht, hr⟩)

/-- Correctness of the substring test against the language semantics. -/
theorem test_iff_contains (r : RE) (s : String) :
    RE.test r s = true ↔ Contains r s :=
  searchList_lang s.data r

theorem processMessage_received (s : Stats) (text : String) (tr : TransportResult) :
    (processMessage s text tr).stats.messagesReceived = s.messagesReceived + 1 := by
  cases h : isValidSignalMessage text with
  | false => simp [processMessage, h]
  | true =>
      simp only [processMessage, h, Bool.not_true, Bool.false_eq_true, if_false]
      split <;> rfl

theorem processMessage_budget (s : Stats) (text : String) (tr : TransportResult) :
    (processMessage s text tr).stats.messagesForwarded +
      (processMessage s text tr).stats.messagesIgnored ≤
    s.messagesForwarded + s.messagesIgnored + 1 := by
  cases h : isValidSignalMessage text with
  | false =>
      simp only [processMessage, h, Bool.not_false, if_true]
      omega
  | true =>
      simp only [processMessage, h, Bool.not_true, Bool.false_eq_true, if_false]
      split <;> (try dsimp only) <;> omega

theorem textHandler_stats_cases (cfg : String) (s : Stats) (e : TextEvent)
    (tr : TransportResult) :
    (textHandler cfg s e tr).stats = s ∨
    (textHandler cfg s e tr).stats = (processMessage s e.text tr).stats := by
  unfold textHandler
  split
  · split
    · split
      · exact Or.inl rfl
      · split
        · exact Or.inl rfl
        · exact Or.inr rfl
    · exact Or.inr rfl
  · exact Or.inr rfl

theorem forwardDateHandler_stats_cases (cfg : String) (s : Stats) (e : ForwardEvent)
    (tr : TransportResult) :
    (forwardDateHandler cfg s e tr).stats = s ∨
    ∃ t, (forwardDateHandler cfg s e tr).stats = (processMessage s t tr).stats := by
  unfold forwardDateHandler
  split
  · split
    · exact Or.inl rfl
    · exact Or.inr ⟨_, rfl⟩
  · exact Or.inl rfl

/-- C2: at every reachable state of the dispatcher, messagesForwarded plus
messagesIgnored is at most messagesReceived: each processed message
increments received exactly once and is then counted as at most one of
forwarded or ignored, and messages discarded for channel mismatch increment
none of the three counters. -/
theorem counters_invariant {cfg : String} {s : Stats} (h : Reachable cfg s) :
    s.messagesForwarded + s.messagesIgnored ≤ s.messagesReceived := by
  induction h with
  | init => exact Nat.le_refl 0
  | text e tr _ ih =>
      rename_i s0 _
      rcases textHandler_stats_cases cfg s0 e tr with hc | hc
      · rw [hc]; exact ih
      · rw [hc]
        have h1 := processMessage_received s0 e.text tr
        have h2 := processMessage_budget s0 e.text tr
        omega
  | fwd e tr _ ih =>
      rename_i s0 _
      rcases forwardDateHandler_stats_cases cfg s0 e tr with hc | ⟨t, hc⟩
      · rw [hc]; exact ih
      · rw [hc]
        have h1 := processMessage_received s0 t tr
        have h2 := processMessage_budget s0 t tr
        omega
  | testCmd tr _ ih => exact ih
  | startCmd _ ih => exact ih
  | statsCmd _ ih => exact ih

/-- Witness for C2: the invariant applied to the concrete reachable state
obtained by processing one non-signal message from the initial state; the
state evaluates to one received, none forwarded, one ignored. -/
theorem counters_invariant_witness :
    ((textHandler "" (Stats.mk 0 0 0) (TextEvent.mk 5 none "hello")
        TransportResult.netError).stats.messagesForwarded +
      (textHandler "" (Stats.mk 0 0 0) (TextEvent.mk 5 none "hello")
        TransportResult.netError).stats.messagesIgnored ≤
      (textHandler "" (Stats.mk 0 0 0) (TextEvent.mk 5 none "hello")
        TransportResult.netError).stats.messagesReceived) ∧
    (textHandler "" (Stats.mk 0 0 0) (TextEvent.mk 5 none "hello")
        TransportResult.netError).stats = Stats.mk 1 0 1 :=
  ⟨counters_invariant (Reachable.text (TextEvent.mk 5 none "hello")
      TransportResult.netError Reachable.init), rfl⟩

/-- C10: the test command runs the hard-coded sample new-signal message
through the forwarder but leaves all three counters unchanged, whatever the
forward outcome. -/
theorem test_command_preserves_counters (s : Stats) (tr : TransportResult) :
    (testCommand s tr).stats = s ∧ (testCommand s tr).forwardedText = some testMessage :=
  ⟨rfl, rfl⟩

/-- C9: for every text-bearing event delivered to the forward-date handler,
processMessage is invoked with no comparison of the origin against the
configured source channel: the result equals processMessage on the text for
every configuration and every origin, so the received counter is updated
regardless of origin. -/
theorem forward_date_no_origin_check (cfg : String) (s : Stats) (e : ForwardEvent)
    (tr : TransportResult) (t : String) (ht : e.text = some t) (hne : t ≠ "") :
    forwardDateHandler cfg s e tr = processMessage s t tr ∧
    (forwardDateHandler cfg s e tr).stats.messagesReceived = s.messagesReceived + 1 := by
  have h1 : forwardDateHandler cfg s e tr = processMessage s t tr := by
    unfold forwardDateHandler
    rw [ht]
    simp only [hne, if_false]
  exact ⟨h1, by rw [h1]; exact processMessage_received s t tr⟩

/-- Witness for C9: a forwarded event from an origin that does not match the
configured source channel is still processed and counted. -/
theorem forward_date_no_origin_check_witness :
    forwardDateHandler "-100999" (Stats.mk 0 0 0) (ForwardEvent.mk 77 (some 55) (some "hi"))
        TransportResult.netError =
      processMessage (Stats.mk 0 0 0) "hi" TransportResult.netError ∧
    (forwardDateHandler "-100999" (Stats.mk 0 0 0) (ForwardEvent.mk 77 (some 55) (some "hi"))
        TransportResult.netError).stats.messagesReceived = 0 + 1 :=
  forward_date_no_origin_check "-100999" (Stats.mk 0 0 0)
    (ForwardEvent.mk 77 (some 55) (some "hi")) TransportResult.netError "hi" rfl
    (by decide)

/-- C4: when a source-channel restriction is configured, every inbound text
event whose originating identity is not accepted by the comparison the
handler performs (the raw configured id, its variant with the -100 prefix
collapsed to a dash, or, for forwarded posts, the original channel id against
the configured id with the -100 prefix stripped) is silently discarded before
classification: the counters are unchanged, nothing is logged and the
forwarder is not invoked. -/
theorem origin_mismatch_discarded (cfg : String) (s : Stats) (e : TextEvent)
    (tr : TransportResult) (hcfg : cfg ≠ "") (hm : originAccepted cfg e = false) :
    textHandler cfg s e tr = StepOut.mk s [] none := by
  obtain ⟨cid, ffc, txt⟩ := e
  cases ffc with
  | none =>
      unfold originAccepted at hm
      simp only [Bool.or_eq_false_iff, beq_eq_false_iff_ne] at hm
      obtain ⟨⟨hA, hB⟩, -⟩ := hm
      unfold textHandler
      simp [hcfg, hA, hB]
  | some fid =>
      unfold originAccepted at hm
      simp only [Bool.or_eq_false_iff, beq_eq_false_iff_ne] at hm
      obtain ⟨⟨hA, hB⟩, hC⟩ := hm
      unfold textHandler
      simp [hcfg, hA, hB, hC]

/-- Witness for C4: with a configured source channel, a valid signal text
arriving from an unrelated chat is discarded with no counter update and no
forward. -/
theorem origin_mismatch_discarded_witness :
    ("-1001234567890" : String) ≠ "" ∧
    originAccepted "-1001234567890" (TextEvent.mk 42 none "script : BTCUSD") = false ∧
    textHandler "-1001234567890" (Stats.mk 3 1 1) (TextEvent.mk 42 none "script : BTCUSD")
        TransportResult.netError = StepOut.mk (Stats.mk 3 1 1) [] none :=
  ⟨by decide, by decide,
    origin_mismatch_discarded "-1001234567890" (Stats.mk 3 1 1)
      (TextEvent.mk 42 none "script : BTCUSD") TransportResult.netError
      (by decide) (by decide)⟩

theorem forwardToWebsite_ok_cases (d : JsonVal) :
    (getField d "status" = some (JsonVal.str "success") ∧
      forwardToWebsite (TransportResult.ok d) = (true, LogKind.successLog)) ∨
    (getField d "status" = some (JsonVal.str "ignored") ∧
      forwardToWebsite (TransportResult.ok d) = (false, LogKind.ignoredLog)) ∨
    (getField d "status" ≠ some (JsonVal.str "success") ∧
      getField d "status" ≠ some (JsonVal.str "ignored") ∧
      forwardToWebsite (TransportResult.ok d) = (false, LogKind.apiErrorLog)) := by
  by_cases h1 : getField d "status" = some (JsonVal.str "success")
  · exact Or.inl ⟨h1, by simp [forwardToWebsite, h1]⟩
  · by_cases h2 : getField d "status" = some (JsonVal.str "ignored")
    · exact Or.inr (Or.inl ⟨h2, by simp [forwardToWebsite, h2]⟩)
    · refine Or.inr (Or.inr ⟨h1, h2, ?_⟩)
      unfold forwardToWebsite
      dsimp only
      split
      · rename_i heq; exact absurd heq h1
      · rename_i heq; exact absurd heq h2
      · rfl

theorem processMessage_forwarded_of_false (s : Stats) (text : String)
    (tr : TransportResult) (h : (forwardToWebsite tr).fst = false) :
    (processMessage s text tr).stats.messagesForwarded = s.messagesForwarded := by
  cases hv : isValidSignalMessage text with
  | false => simp [processMessage, hv]
  | true =>
      simp only [processMessage, hv, Bool.not_true, Bool.false_eq_true, if_false]
      rw [h]
      rfl

/-- C3: the forwarder reports success exactly when the downstream JSON
response is an object whose status field is the string success; a response
with status ignored is reported as non-forwarded with the ignored log line,
not as an error, and the forwarded counter does not increment; any other
status value, a response without the expected status field, and a
network/transport failure are all reported as failure (false). -/
theorem forwarder_status_semantics (tr : TransportResult) :
    ((forwardToWebsite tr).fst = true ↔
      ∃ d, tr = TransportResult.ok d ∧
        getField d "status" = some (JsonVal.str "success")) ∧
    (∀ d, tr = TransportResult.ok d →
      getField d "status" = some (JsonVal.str "ignored") →
      forwardToWebsite tr = (false, LogKind.ignoredLog)) ∧
    (∀ d, tr = TransportResult.ok d →
      getField d "status" ≠ some (JsonVal.str "success") →
      getField d "status" ≠ some (JsonVal.str "ignored") →
      forwardToWebsite tr = (false, LogKind.apiErrorLog)) ∧
    (tr = TransportResult.netError ∨ tr = TransportResult.badJson →
      forwardToWebsite tr = (false, LogKind.exceptionLog)) ∧
    (∀ (s : Stats) (text : String) (d : JsonVal), tr = TransportResult.ok d →
      getField d "status" = some (JsonVal.str "ignored") →
      (processMessage s text tr).stats.messagesForwarded = s.messagesForwarded) := by
  refine ⟨?_, ?_, ?_, ?_, ?_⟩
  · cases tr with
    | ok d =>
        rcases forwardToWebsite_ok_cases d with ⟨hs, hf⟩ | ⟨hs, hf⟩ | ⟨h1, h2, hf⟩
        · rw [hf]
          simp only [true_iff]
          exact ⟨d, rfl, hs⟩
        · rw [hf]
          simp only [Bool.false_eq_true, false_iff]
          rintro ⟨d2, hd2, hs2⟩
          injection hd2 with hdd
          subst hdd
          rw [hs] at hs2
          simp at hs2
        · rw [hf]
          simp only [Bool.false_eq_true, false_iff]
          rintro ⟨d2, hd2, hs2⟩
          injection hd2 with hdd
          subst hdd
          exact absurd hs2 h1
    | netError =>
        simp only [forwardToWebsite, Bool.false_eq_true, false_iff]
        rintro ⟨d, hd, _⟩
        exact TransportResult.noConfusion hd
    | badJson =>
        simp only [forwardToWebsite, Bool.false_eq_true, false_iff]
        rintro ⟨d, hd, _⟩
        exact TransportResult.noConfusion hd
  · intro d hd hs
    subst hd
    simp [forwardToWebsite, hs]
  · intro d hd h1 h2
    subst hd
    rcases forwardToWebsite_ok_cases d with ⟨hs, _⟩ | ⟨hs, _⟩ | ⟨_, _, hf⟩
    · exact absurd hs h1
    · exact absurd hs h2
    · exact hf
  · rintro (hd | hd) <;> subst hd <;> rfl
  · intro s text d hd hs
    subst hd
    apply processMessage_forwarded_of_false
    have hfw : forwardToWebsite (TransportResult.ok d) = (false, LogKind.ignoredLog) := by
      simp [forwardToWebsite, hs]
    rw [hfw]

/-- Witness for C3: a downstream response with status ignored is reported as
non-forwarded with the ignored log line, and processing a matching message
under that response leaves the forwarded counter unchanged. -/
theorem forwarder_status_semantics_witness :
    forwardToWebsite (TransportResult.ok (JsonVal.obj [("status", JsonVal.str "ignored")])) =
      (false, LogKind.ignoredLog) ∧
    (processMessage (Stats.mk 4 2 1) "any text" (TransportResult.ok (JsonVal.obj [("status", JsonVal.str "ignored")]))).stats.messagesForwarded = 2 :=
  ⟨(forwarder_status_semantics
      (TransportResult.ok (JsonVal.obj [("status", JsonVal.str "ignored")]))).2.1
      (JsonVal.obj [("status", JsonVal.str "ignored")]) rfl rfl,
    (forwarder_status_semantics
      (TransportResult.ok (JsonVal.obj [("status", JsonVal.str "ignored")]))).2.2.2.2
      (Stats.mk 4 2 1) "any text" (JsonVal.obj [("status", JsonVal.str "ignored")]) rfl rfl⟩

/-- C8: the forwarder is total for every transport outcome: when the
downstream endpoint is unreachable or the response body is not parseable
JSON, forwardToWebsite returns false (with the caught-exception log) rather
than propagating an exception, the dispatcher state after the message is
well defined with the forwarded counter unchanged, and the next message is
still processed and counted. -/
theorem transport_failure_safe (s : Stats) (text t2 : String) (tr2 : TransportResult)
    (hv : isValidSignalMessage text = true) :
    forwardToWebsite TransportResult.netError = (false, LogKind.exceptionLog) ∧
    forwardToWebsite TransportResult.badJson = (false, LogKind.exceptionLog) ∧
    (processMessage s text TransportResult.netError).stats =
      Stats.mk (s.messagesReceived + 1) s.messagesForwarded s.messagesIgnored ∧
    ((processMessage (processMessage s text TransportResult.netError).stats t2 tr2).stats).messagesReceived = s.messagesReceived + 2 := by
  refine ⟨rfl, rfl, ?_, ?_⟩
  · simp only [processMessage, forwardToWebsite, hv, Bool.not_true, Bool.false_eq_true,
      if_false]
  · rw [processMessage_received, processMessage_received]

/-- Witness for C8: processing the scenario-1 signal while the endpoint is
unreachable leaves the counters at one received, none forwarded, none
ignored, and a following message is still counted. -/
theorem transport_failure_safe_witness :
    forwardToWebsite TransportResult.netError = (false, LogKind.exceptionLog) ∧
    forwardToWebsite TransportResult.badJson = (false, LogKind.exceptionLog) ∧
    (processMessage (Stats.mk 0 0 0) sampleSignal TransportResult.netError).stats =
      Stats.mk (0 + 1) 0 0 ∧
    ((processMessage (processMessage (Stats.mk 0 0 0) sampleSignal TransportResult.netError).stats "hello" TransportResult.badJson).stats).messagesReceived = 0 + 2 :=
  transport_failure_safe (Stats.mk 0 0 0) sampleSignal "hello" TransportResult.badJson
    (by decide)

/-- Counterexample to C5 as stated: processing a non-signal message as the
tenth received message makes the received counter a multiple of ten, yet no
summary line is emitted, because the ignored path returns before the summary
check. -/
theorem tenth_ignored_no_summary :
    (processMessage (Stats.mk 9 0 9) "hello" TransportResult.netError).stats.messagesReceived % 10 = 0 ∧
    (processMessage (Stats.mk 9 0 9) "hello" TransportResult.netError).logs.any LogEvent.isStatsLine = false := by
  exact ⟨rfl, rfl⟩

/-- C5 as amended: the summary line with all three counters is emitted on the
tenth received message only when the message was classified as a signal; on
the ignored path the early return skips the summary whatever the received
counter is, and on the matched path the summary appears exactly when received
is a multiple of ten. -/
theorem summary_only_on_matched (s : Stats) (text : String) (tr : TransportResult) :
    (isValidSignalMessage text = true →
      ((processMessage s text tr).stats.messagesReceived % 10 = 0 →
        LogEvent.statsLine (processMessage s text tr).stats.messagesReceived
          (processMessage s text tr).stats.messagesForwarded
          (processMessage s text tr).stats.messagesIgnored ∈
          (processMessage s text tr).logs) ∧
      ((processMessage s text tr).stats.messagesReceived % 10 ≠ 0 →
        (processMessage s text tr).logs.any LogEvent.isStatsLine = false)) ∧
    (isValidSignalMessage text = false →
      (processMessage s text tr).logs.any LogEvent.isStatsLine = false) := by
  constructor
  · intro hv
    simp only [processMessage, hv, Bool.not_true, Bool.false_eq_true, if_false]
    cases hfw : (forwardToWebsite tr).fst <;>
      simp only [hfw, Bool.false_eq_true, if_false, if_true] <;>
      cases hmod : (s.messagesReceived + 1) % 10 == 0 <;>
      simp only [hmod, Bool.false_eq_true, if_false, if_true] <;>
      refine ⟨?_, ?_⟩ <;> intro hval
    · exact absurd hval (by simpa using beq_eq_false_iff_ne.mp hmod)
    · rfl
    · simp
    · exact absurd (by simpa using hmod) hval
    · exact absurd hval (by simpa using beq_eq_false_iff_ne.mp hmod)
    · rfl
    · simp
    · exact absurd (by simpa using hmod) hval
  · intro hv
    simp only [processMessage, hv, Bool.not_false, if_true]
    rfl

/-- Witness for C5 as amended: the tenth received message, when it is a valid
signal, does produce the summary line with the three counters. -/
theorem summary_only_on_matched_witness :
    LogEvent.statsLine
      (processMessage (Stats.mk 9 0 0) sampleSignal TransportResult.netError).stats.messagesReceived
      (processMessage (Stats.mk 9 0 0) sampleSignal TransportResult.netError).stats.messagesForwarded
      (processMessage (Stats.mk 9 0 0) sampleSignal TransportResult.netError).stats.messagesIgnored ∈
      (processMessage (Stats.mk 9 0 0) sampleSignal TransportResult.netError).logs :=
  ((summary_only_on_matched (Stats.mk 9 0 0) sampleSignal TransportResult.netError).1
    (by decide)).1 (by decide)

/-- C1: the new-signal family matches exactly when the text contains
substrings matching all five label sub-patterns (script with a token,
position with BUY or SELL, enter price with a numeric value, take profit 1
with a numeric value, stoploss with a numeric value, each matched
case-insensitively with arbitrary whitespace around the colon, as the
sub-pattern expressions state); a text missing any one of the five yields
no-match unless the take-profit-update or stop-loss-hit family matches. -/
theorem classifier_new_signal_iff (text : String) :
    isValidSignalMessage text = true ↔
      ((Contains reScript text ∧ Contains rePosition text ∧
        Contains reEnterPrice text ∧ Contains reTakeProfit1 text ∧
        Contains reStoploss text) ∨
       isTpUpdate text = true ∨ isSlHit text = true) := by
  unfold isValidSignalMessage isNewSignal
  simp only [Bool.or_eq_true, Bool.and_eq_true, test_iff_contains]
  tauto

theorem lang_star_cls {p : Char → Bool} (l : List Char) :
    Lang (RE.star (RE.cls p)) l ↔ ∀ c ∈ l, p c = true := by
  induction l with
  | nil =>
      simp only [List.not_mem_nil, false_implies, implies_true, iff_true]
      exact Lang.starNil
  | cons c cs ih =>
      constructor
      · intro h
        rcases lang_star_cons h with ⟨l1, l2, hl, hc, hrest⟩
        rcases lang_cls_inv hc with ⟨c1, hcc, hp⟩
        injection hcc with hc1 hl1
        subst hc1
        subst hl1
        rw [List.nil_append] at hl
        subst hl
        intro x hx
        rcases List.mem_cons.mp hx with hx | hx
        · subst hx; exact hp
        · exact ih.mp hrest x hx
      · intro h
        have hc : Lang (RE.cls p) [c] := Lang.cls (h c (List.mem_cons_self c cs))
        have hrest : Lang (RE.star (RE.cls p)) cs :=
          ih.mpr (fun x hx => h x (List.mem_cons_of_mem c hx))
        exact Lang.starApp hc hrest

theorem lang_rePlus {p : Char → Bool} (l : List Char) :
    Lang (rePlus p) l ↔ l ≠ [] ∧ ∀ c ∈ l, p c = true := by
  unfold rePlus
  constructor
  · intro h
    rcases lang_seq_inv h with ⟨l1, l2, hl, h1, h2⟩
    rcases lang_cls_inv h1 with ⟨c, hc, hp⟩
    subst hc
    subst hl
    refine ⟨by simp, ?_⟩
    intro x hx
    rcases List.mem_cons.mp hx with hx | hx
    · subst hx; exact hp
    · exact (lang_star_cls l2).mp h2 x hx
  · rintro ⟨hne, hall⟩
    cases l with
    | nil => exact absurd rfl hne
    | cons c cs =>
        have hc : Lang (RE.cls p) [c] := Lang.cls (hall c (List.mem_cons_self c cs))
        have hrest : Lang (RE.star (RE.cls p)) cs :=
          (lang_star_cls cs).mpr (fun x hx => hall x (List.mem_cons_of_mem c hx))
        exact Lang.seq hc hrest

/-- Counterexample to C6 as stated: the lone decimal point is accepted by the
numeric-value sub-pattern [\d.]+ of every family, yet it is not a digit
sequence optionally containing a decimal point. -/
theorem numeric_value_dot_counterexample :
    Lang (rePlus digitDotChar) (String.data ".") ∧
    ¬ SpecNumericValue (String.data ".") := by
  constructor
  · refine (lang_rePlus (String.data ".")).mpr ⟨by decide, ?_⟩
    intro c hc
    rcases List.mem_singleton.mp hc with h
    subst h
    decide
  · rintro (⟨_, hall⟩ | ⟨a, b, hab, hne, _⟩)
    · exact absurd (hall '.' (by decide)) (by decide)
    · cases a with
      | nil =>
          rw [List.nil_append] at hab
          injection hab with _ hb
          subst hb
          exact hne rfl
      | cons x xs =>
          rw [List.cons_append] at hab
          injection hab with _ ht
          exact absurd ht (by simp)

/-- C6 as amended: in every pattern family the numeric-value sub-pattern
[\d.]+ accepts exactly the nonempty strings whose characters are each an
ASCII digit or a decimal point — so a value may also be a lone dot, contain
several dots, or consist of dots only; no sign, exponent or
thousands-separator handling exists. -/
theorem numeric_value_chars_iff (l : List Char) :
    Lang (rePlus digitDotChar) l ↔ l ≠ [] ∧ ∀ c ∈ l, digitDotChar c = true :=
  lang_rePlus l

theorem contains_tpPrice_of_priceIn {text : String} (h : Contains rePriceIn text) :
    Contains reTpPrice text := by
  rcases h with ⟨l1, l2, l3, hl, hr⟩
  refine ⟨l1, l2, l3, hl, ?_⟩
  have : Lang reTpPrice ([] ++ l2) := Lang.seq (Lang.altr Lang.eps) hr
  simpa using this

theorem contains_tpPrice_of_atPriceIn {text : String} (h : Contains reAtPriceIn text) :
    Contains reTpPrice text := by
  rcases h with ⟨l1, l2, l3, hl, hr⟩
  refine ⟨l1, l2, l3, hl, ?_⟩
  rcases lang_seq_inv hr with ⟨la, lb, hsplit, hat, hp⟩
  subst hsplit
  exact Lang.seq (Lang.altl hat) hp

/-- C7: every text containing a take-profit-update phrase (take profit N
from long or short signal) together with a price phrase (price colon number
in token) is classified as a match, both when the at prefix precedes price
and when it is omitted. -/
theorem tp_update_phrases_match (text : String)
    (h1 : Contains reTpPhrase text)
    (h2 : Contains rePriceIn text ∨ Contains reAtPriceIn text) :
    isValidSignalMessage text = true := by
  have htp2 : Contains reTpPrice text := by
    rcases h2 with h | h
    · exact contains_tpPrice_of_priceIn h
    · exact contains_tpPrice_of_atPriceIn h
  have htp : isTpUpdate text = true := by
    unfold isTpUpdate
    rw [Bool.and_eq_true, test_iff_contains, test_iff_contains]
    exact ⟨h1, htp2⟩
  unfold isValidSignalMessage
  rw [Bool.or_eq_true, Bool.or_eq_true]
  exact Or.inl (Or.inr htp)

/-- Witness for C7: the documented take-profit-update message, carrying the
at prefix, is classified as a match. -/
theorem tp_update_phrases_match_witness :
    isValidSignalMessage "Take Profit 3 From Long Signal at Price : 25822.02 in NAS100" = true :=
  tp_update_phrases_match "Take Profit 3 From Long Signal at Price : 25822.02 in NAS100"
    ((test_iff_contains reTpPhrase _).mp (by decide))
    (Or.inr ((test_iff_contains reAtPriceIn _).mp (by decide)))

end WhopBot
